import Mathlib

set_option maxRecDepth 100000

/-!
Verification development for the markdown-exit-s3-image plugin.

The definitions below are a shallow embedding of the image-rendering
pipeline: the Obsidian alt-text dimension parser, the Bitiful domain
check, the format ignore-list check, the metadata cache with its
dirty-tracking, the srcset builder, the markup assembler and the
per-reference orchestrator from src/index.ts, src/cache.ts (the variant
whose get and set URL-decode the key) and src/bitiful.ts.

JavaScript strings are modelled as Lean strings (lists of characters),
JavaScript numbers on the code paths in scope are integers and are
modelled as Nat, the JS object used as the cache map is modelled as an
association list with first-occurrence keys, and a thrown exception is
modelled as Except.error. Math.round over IEEE doubles is modelled as
rounding the exact rational, which agrees with the double computation on
all inputs exercised here.
-/

/-- Whitespace set trimmed by the JavaScript String.prototype.trim and
matched by the regex class backslash-s: the WhiteSpace and LineTerminator
productions of ECMAScript. -/
def isJsSpace (c : Char) : Bool :=
  c = ' ' || c = '\t' || c = '\n' || c = '\r' ||
  c.toNat = 0xB || c.toNat = 0xC || c.toNat = 0xA0 || c.toNat = 0x1680 ||
  (0x2000 ≤ c.toNat && c.toNat ≤ 0x200A) ||
  c.toNat = 0x2028 || c.toNat = 0x2029 || c.toNat = 0x202F ||
  c.toNat = 0x205F || c.toNat = 0x3000 || c.toNat = 0xFEFF

/-- ECMAScript LineTerminator characters, which the regex dot does not match. -/
def isLineTerm (c : Char) : Bool :=
  c = '\n' || c = '\r' || c.toNat = 0x2028 || c.toNat = 0x2029

/-- Model of the JavaScript trim on a character list. -/
def jsTrimL (s : List Char) : List Char :=
  ((s.dropWhile isJsSpace).reverse.dropWhile isJsSpace).reverse

/-- Boolean prefix test on character lists. -/
def isPrefixL : List Char → List Char → Bool
  | [], _ => true
  | _ :: _, [] => false
  | a :: as, b :: bs => a = b && isPrefixL as bs

/-- Boolean substring test, the model of JavaScript String.prototype.includes. -/
def hasSubL (pat : List Char) : List Char → Bool
  | [] => pat.isEmpty
  | c :: rest => isPrefixL pat (c :: rest) || hasSubL pat rest

/-- Model of s.includes(pat) for Lean strings. -/
def strIncludes (s pat : String) : Bool := hasSubL pat.data s.data

/-- Boolean suffix test on character lists. -/
def endsWithL (pat s : List Char) : Bool := isPrefixL pat.reverse s.reverse

/-- Numeric value of a digit run, the model of parseInt base 10 on an
all-digit string. -/
def natOfDigits (ds : List Char) : Nat :=
  ds.foldl (fun n c => n * 10 + (c.toNat - 48)) 0

/-- Result of the Obsidian alt-text dimension parser, interface
ParsedImageAlt of src/index.ts. -/
structure ParsedImageAlt where
  alt : String
  width : Option Nat
  height : Option Nat
deriving DecidableEq, Repr

/-- Split a character list at its last pipe character: returns the parts
before and after the last pipe, or none when no pipe occurs. Because the
regex suffix groups of parseObsidianImageAlt cannot contain a pipe, the
separator chosen by the regex is always the last pipe. -/
def splitLastPipe : List Char → Option (List Char × List Char)
  | [] => none
  | c :: rest =>
    match splitLastPipe rest with
    | some (pre, suf) => some (c :: pre, suf)
    | none => if c = '|' then some ([], rest) else none

/-- Parse the dimension suffix after the pipe: a digit run, optionally
followed by the letter x and a second digit run, exactly as the anchored
regex groups of parseObsidianImageAlt accept. -/
def parseDims (cs : List Char) : Option (Nat × Option Nat) :=
  let d1 := cs.takeWhile Char.isDigit
  let rest := cs.dropWhile Char.isDigit
  if d1.isEmpty then none
  else
    match rest with
    | [] => some (natOfDigits d1, none)
    | 'x' :: d2 =>
      if !d2.isEmpty && d2.all Char.isDigit then
        some (natOfDigits d1, some (natOfDigits d2))
      else none
    | _ => none

/-- Model of parseObsidianImageAlt from src/index.ts: trim the content,
match it against the anchored regex with a lazy label group, a pipe, a
digit group and an optional x plus digit group; on failure return the
whole original content as the alt text. The label group uses the regex
dot, which excludes line terminators. -/
def parseObsidianImageAlt (content : String) : ParsedImageAlt :=
  let t := jsTrimL content.data
  match splitLastPipe t with
  | none => ⟨content, none, none⟩
  | some (pre, suf) =>
    if pre.any isLineTerm then ⟨content, none, none⟩
    else
      match parseDims suf with
      | none => ⟨content, none, none⟩
      | some (w, h) => ⟨String.mk (jsTrimL pre), some w, h⟩

example : parseObsidianImageAlt "Alt text|300" = ⟨"Alt text", some 300, none⟩ := by decide
example : parseObsidianImageAlt "Alt text|640x480" = ⟨"Alt text", some 640, some 480⟩ := by decide
example : parseObsidianImageAlt "Invalid|abc" = ⟨"Invalid|abc", none, none⟩ := by decide
example : parseObsidianImageAlt "Partial|300xabc" = ⟨"Partial|300xabc", none, none⟩ := by decide
example : parseObsidianImageAlt "|300" = ⟨"", some 300, none⟩ := by decide
example : parseObsidianImageAlt " spaced alt|500 " = ⟨"spaced alt", some 500, none⟩ := by decide
example : parseObsidianImageAlt "No dimensions here" = ⟨"No dimensions here", none, none⟩ := by decide

/-- Parsed pieces of a URL that the plugin reads: the scheme, the
lowercased hostname without the port, and the pathname. -/
structure UrlParts where
  scheme : List Char
  host : List Char
  path : List Char
deriving DecidableEq, Repr

/-- Characters allowed in a URL scheme. -/
def isSchemeChar (c : Char) : Bool :=
  c.isAlpha || c.isDigit || c = '+' || c = '-' || c = '.'

/-- Hostname characters covered by this model of the WHATWG host parser. -/
def isHostChar (c : Char) : Bool :=
  c.isAlphanum || c = '.' || c = '-' || c = '_'

/-- Model of the WHATWG URL constructor restricted to the hierarchical
scheme://host/path?query shape that http and https URLs take. Inputs the
constructor would reject with a thrown TypeError, and hosts outside the
plain-hostname subset modelled by isHostChar, map to none. The hostname
is lowercased as the constructor does; the port and everything after the
path are dropped because the plugin only reads hostname and pathname. -/
def urlParse (s : List Char) : Option UrlParts :=
  match s.takeWhile isSchemeChar, s.dropWhile isSchemeChar with
  | [], _ => none
  | sc :: scs, ':' :: '/' :: '/' :: rest2 =>
    if !sc.isAlpha then none
    else
      let authority := rest2.takeWhile (fun c => !(c == '/' || c == '?' || c == '#'))
      let after := rest2.dropWhile (fun c => !(c == '/' || c == '?' || c == '#'))
      let host := authority.takeWhile (fun c => !(c == ':'))
      let port := authority.dropWhile (fun c => !(c == ':'))
      let portOk := match port with
        | [] => true
        | _ :: ps => ps.all Char.isDigit
      if host.isEmpty || !(host.all isHostChar) || !portOk then none
      else
        let path := after.takeWhile (fun c => !(c == '?' || c == '#'))
        let pathname := if path.isEmpty then ['/'] else path
        some ⟨(sc :: scs).map Char.toLower, host.map Char.toLower, pathname⟩
  | _, _ => none

/-- Model of isBitifulDomain from src/bitiful.ts: parse the URL and test
whether the hostname contains one of the configured domains as a
substring; a URL the constructor rejects yields false via the catch. -/
def isBitifulDomain (url : String) (bitifulDomains : List String) : Bool :=
  match urlParse url.data with
  | none => false
  | some u => bitifulDomains.any (fun dm => hasSubL dm.data u.host)

/-- Model of shouldIgnoreFormat from src/index.ts: lowercase the pathname
and test whether it ends with a dot followed by one of the configured
formats, lowercased. The real function would throw on an unparsable URL;
the orchestrator only calls it after isBitifulDomain returned true, which
implies the URL parses, so the none branch here is unreachable and is
mapped to false. -/
def shouldIgnoreFormat (url : String) (formats : List String) : Bool :=
  match urlParse url.data with
  | none => false
  | some u =>
    let pathname := u.path.map Char.toLower
    formats.any (fun f => endsWithL ('.' :: f.data.map Char.toLower) pathname)

example : isBitifulDomain "https://s3.bitiful.net/a.jpg" ["s3.bitiful.net"] = true := by decide
example : isBitifulDomain "https://s3.bitiful.net.evil.com/a.jpg" ["s3.bitiful.net"] = true := by decide
example : isBitifulDomain "not a url" ["s3.bitiful.net"] = false := by decide
example : isBitifulDomain "https://DEMO.Bitiful.com/a.jpg" ["bitiful.com"] = true := by decide
example : shouldIgnoreFormat "https://s3.bitiful.net/a.SVG" ["svg"] = true := by decide
example : shouldIgnoreFormat "https://s3.bitiful.net/a.jpg?x=1" ["svg"] = false := by decide

/-- Hexadecimal digit value, as the percent-escape scanner of the
ECMAScript decodeURIComponent reads it. -/
def hexVal (c : Char) : Option Nat :=
  if '0' ≤ c ∧ c ≤ '9' then some (c.toNat - 48)
  else if 'a' ≤ c ∧ c ≤ 'f' then some (c.toNat - 87)
  else if 'A' ≤ c ∧ c ≤ 'F' then some (c.toNat - 55)
  else none

/-- Model of decodeURIComponent on a character list: characters other
than the percent sign pass through unchanged; a percent sign must be
followed by two hexadecimal digits, and an escaped byte at or above 0x80
must begin a complete, shortest-form UTF-8 sequence whose continuation
bytes are themselves percent-escaped. Any violation makes the real
function throw URIError, modelled as none. -/
def decodeEsc : List Char → Option (List Char)
  | [] => some []
  | '%' :: h1 :: h2 :: rest =>
    match hexVal h1, hexVal h2 with
    | some a, some b =>
      let b1 := a * 16 + b
      if b1 < 0x80 then (decodeEsc rest).map (Char.ofNat b1 :: ·)
      else if 0xC2 ≤ b1 && b1 ≤ 0xDF then
        match rest with
        | '%' :: h3 :: h4 :: rest2 =>
          match hexVal h3, hexVal h4 with
          | some c, some d =>
            let b2 := c * 16 + d
            if 0x80 ≤ b2 && b2 ≤ 0xBF then
              (decodeEsc rest2).map (Char.ofNat ((b1 - 0xC0) * 64 + (b2 - 0x80)) :: ·)
            else none
          | _, _ => none
        | _ => none
      else if 0xE0 ≤ b1 && b1 ≤ 0xEF then
        match rest with
        | '%' :: h3 :: h4 :: '%' :: h5 :: h6 :: rest2 =>
          match hexVal h3, hexVal h4, hexVal h5, hexVal h6 with
          | some c, some d, some e, some f =>
            let b2 := c * 16 + d
            let b3 := e * 16 + f
            let lo2 := if b1 = 0xE0 then 0xA0 else 0x80
            let hi2 := if b1 = 0xED then 0x9F else 0xBF
            if lo2 ≤ b2 && b2 ≤ hi2 && 0x80 ≤ b3 && b3 ≤ 0xBF then
              (decodeEsc rest2).map
                (Char.ofNat ((b1 - 0xE0) * 4096 + (b2 - 0x80) * 64 + (b3 - 0x80)) :: ·)
            else none
          | _, _, _, _ => none
        | _ => none
      else if 0xF0 ≤ b1 && b1 ≤ 0xF4 then
        match rest with
        | '%' :: h3 :: h4 :: '%' :: h5 :: h6 :: '%' :: h7 :: h8 :: rest2 =>
          match hexVal h3, hexVal h4, hexVal h5, hexVal h6, hexVal h7, hexVal h8 with
          | some c, some d, some e, some f, some g, some i =>
            let b2 := c * 16 + d
            let b3 := e * 16 + f
            let b4 := g * 16 + i
            let lo2 := if b1 = 0xF0 then 0x90 else 0x80
            let hi2 := if b1 = 0xF4 then 0x8F else 0xBF
            if lo2 ≤ b2 && b2 ≤ hi2 && 0x80 ≤ b3 && b3 ≤ 0xBF && 0x80 ≤ b4 && b4 ≤ 0xBF then
              (decodeEsc rest2).map
                (Char.ofNat ((b1 - 0xF0) * 262144 + (b2 - 0x80) * 4096 +
                  (b3 - 0x80) * 64 + (b4 - 0x80)) :: ·)
            else none
          | _, _, _, _, _, _ => none
        | _ => none
      else none
    | _, _ => none
  | '%' :: _ => none
  | c :: rest => (decodeEsc rest).map (c :: ·)

/-- Model of decodeURIComponent on Lean strings. -/
def decodeURIComponentStr (s : String) : Option String :=
  (decodeEsc s.data).map String.mk

example : decodeURIComponentStr "https://s3.bitiful.net/a.jpg?x=1" = some "https://s3.bitiful.net/a.jpg?x=1" := by decide
example : decodeURIComponentStr "a%20b" = some "a b" := by decide
example : decodeURIComponentStr "a%zz.jpg" = none := by decide
example : decodeURIComponentStr "%C3%A9" = some "é" := by decide
example : decodeURIComponentStr "%C3a" = none := by decide
example : decodeURIComponentStr "%" = none := by decide

/-- Cache entry, interface CacheEntry of src/cache.ts: the placeholder
data URL and the original pixel dimensions. -/
structure CacheEntry where
  dataURL : String
  width : Nat
  height : Nat
deriving DecidableEq, Repr

/-- In-memory state of class ImageCache from src/cache.ts: the key to
entry map (a JS object, modelled as an association list whose keys are
unique and kept in insertion order), the dirty flag, and the two
observability counters. -/
structure CacheState where
  cache : List (String × CacheEntry)
  isDirty : Bool
  apiRequests : Nat
  cacheHits : Nat
deriving DecidableEq, Repr

/-- Lookup in the cache map, the model of reading this.cache at a key. -/
def lookupCache : List (String × CacheEntry) → String → Option CacheEntry
  | [], _ => none
  | (k0, v0) :: rest, k => if k0 = k then some v0 else lookupCache rest k

/-- Write to the cache map: overwrite in place when the key is present,
append otherwise, as assignment to a JS object property does. -/
def updateCache : List (String × CacheEntry) → String → CacheEntry → List (String × CacheEntry)
  | [], k, v => [(k, v)]
  | (k0, v0) :: rest, k, v =>
    if k0 = k then (k0, v) :: rest else (k0, v0) :: updateCache rest k v

/-- Minimal JSON string escaping used by the serialization model. -/
def jsonEscape (s : String) : String :=
  String.mk (s.data.foldr
    (fun c acc =>
      if c = '\\' then '\\' :: '\\' :: acc
      else if c = '"' then '\\' :: '"' :: acc
      else c :: acc) [])

/-- Model of JSON.stringify on a cache entry. The call site in
src/index.ts builds the entry literal with the keys width, height,
dataURL in that order, so every stored entry serializes with this fixed
key order. -/
def serializeEntry (e : CacheEntry) : String :=
  "\x7b\"width\":" ++ toString e.width ++ ",\"height\":" ++ toString e.height ++
    ",\"dataURL\":\"" ++ jsonEscape e.dataURL ++ "\"\x7d"

/-- Model of ImageCache.get: decode the key with decodeURIComponent (a
malformed escape makes the real method throw, modelled as none), then
return the stored entry and bump the hit counter, or the miss sentinel
and bump the request counter. -/
def cacheGet (st : CacheState) (key : String) : Option (Option CacheEntry × CacheState) :=
  match decodeURIComponentStr key with
  | none => none
  | some dk =>
    match lookupCache st.cache dk with
    | some e => some (some e, { st with cacheHits := st.cacheHits + 1 })
    | none => some (none, { st with apiRequests := st.apiRequests + 1 })

/-- Model of ImageCache.set: decode the key, then write the entry and
mark the store dirty only when the serialized new value differs from the
serialized stored value; an absent stored value always differs. -/
def cacheSet (st : CacheState) (key : String) (v : CacheEntry) : Option CacheState :=
  match decodeURIComponentStr key with
  | none => none
  | some dk =>
    if (lookupCache st.cache dk).map serializeEntry = some (serializeEntry v) then some st
    else some { st with cache := updateCache st.cache dk v, isDirty := true }

/-- First-occurrence deduplication with an accumulator of already seen
values, the model of Array.from over a JS Set. -/
def dedupFirstAux (seen : List Nat) : List Nat → List Nat
  | [] => []
  | x :: xs =>
    if x ∈ seen then dedupFirstAux seen xs
    else x :: dedupFirstAux (x :: seen) xs

/-- First-occurrence deduplication, the model of Array.from over new Set. -/
def dedupFirst (l : List Nat) : List Nat := dedupFirstAux [] l

/-- Widths emitted by generateSrcset from src/index.ts: keep the
candidates strictly below the original width, append the original width,
deduplicate, and sort ascending. The JS numeric-comparator sort is
modelled by insertion sort, which produces the same ascending order. -/
def srcsetSortedWidths (width : Nat) (srcsetWidths : List Nat) : List Nat :=
  List.insertionSort (· ≤ ·) (dedupFirst (srcsetWidths.filter (· < width) ++ [width]))

/-- URL variant used for one srcset width: the entry for the original
width uses the unmodified URL, every other entry appends a width query
parameter with an ampersand when the URL already has a query string and a
question mark otherwise. -/
def srcsetEntryUrl (src : String) (width w : Nat) : String :=
  if w = width then src
  else if strIncludes src "?" then src ++ "&w=" ++ toString w
  else src ++ "?w=" ++ toString w

/-- Model of generateSrcset from src/index.ts. -/
def generateSrcset (src : String) (width : Nat) (srcsetWidths : List Nat) : String :=
  String.intercalate ", " ((srcsetSortedWidths width srcsetWidths).map
    (fun w => srcsetEntryUrl src width w ++ " " ++ toString w ++ "w"))

example : generateSrcset "https://a/b.jpg" 800 [400, 600, 800, 1200, 400] =
    "https://a/b.jpg?w=400 400w, https://a/b.jpg?w=600 600w, https://a/b.jpg 800w" := by decide
example : generateSrcset "https://a/b.jpg?q=1" 300 [400, 600] = "https://a/b.jpg?q=1 300w" := by decide

/-- Truthiness of an optional JS number on the code paths in scope:
undefined and zero are falsy. -/
def truthyNat : Option Nat → Bool
  | some n => n != 0
  | none => false

/-- Model of the JS expression Math.round applied to the exact quotient
a over b, rounding half away from zero for nonnegative inputs; division
by zero is never reached on the modelled paths. -/
def roundDiv (a b : Nat) : Nat :=
  if b = 0 then 0 else (2 * a + b) / (2 * b)

/-- After an opening angle bracket, test whether the characters img plus
one regex whitespace character follow, returning what comes after them. -/
def imgTagRest : List Char → Option (List Char)
  | 'i' :: 'm' :: 'g' :: d :: rest2 => if isJsSpace d then some rest2 else none
  | _ => none

/-- Scan for the first occurrence of the img opening tag followed by a
regex whitespace character and splice a style attribute into it,
consuming the matched whitespace and appending a space, exactly as the
replace call of applyDimensionToHTML does. No occurrence leaves the
input unchanged. -/
def replaceImgStyle (style : List Char) : List Char → List Char
  | [] => []
  | c :: rest =>
    if c = '<' then
      match imgTagRest rest with
      | some rest2 =>
        ('<' :: 'i' :: 'm' :: 'g' :: ' ' :: 's' :: 't' :: 'y' :: 'l' :: 'e' :: '=' :: '"' :: style)
          ++ '"' :: ' ' :: rest2
      | none => c :: replaceImgStyle style rest
    else c :: replaceImgStyle style rest

/-- Model of applyDimensionToHTML from src/index.ts: with a truthy width,
build the max-width and width style, extend it with a height when the
height is truthy, and splice it into the first img tag of the host
rendering when one is present; otherwise return the rendering unchanged. -/
def applyDimensionToHTML (html : String) (width height : Option Nat) : String :=
  match width with
  | none => html
  | some w =>
    if w = 0 then html
    else
      let style := "max-width: " ++ toString w ++ "px; width: " ++ toString w ++ "px;" ++
        (match height with
         | some h => if h = 0 then "" else " height: " ++ toString h ++ "px;"
         | none => "")
      if strIncludes html "<img" then String.mk (replaceImgStyle style.data html.data)
      else html

example : applyDimensionToHTML "<img src=\"u\">" (some 300) none =
    "<img style=\"max-width: 300px; width: 300px;\" src=\"u\">" := by decide
example : applyDimensionToHTML "<img src=\"u\">" (some 300) (some 200) =
    "<img style=\"max-width: 300px; width: 300px; height: 200px;\" src=\"u\">" := by decide
example : applyDimensionToHTML "no image here" (some 300) none = "no image here" := by decide

/-- Configuration slice read by the per-image rule of src/index.ts. The
resolved lazy options of src/options.ts and src/types.ts are not part of
this structure because no code in the rule reads them. -/
structure PluginOpts where
  progressiveEnable : Bool
  srcsetWidths : List Nat
  bitifulDomains : List String
  ignoreFormats : List String
deriving DecidableEq, Repr

/-- Outcome of the two remote Bitiful calls for one reference, as seen
after both promises settle: getBitifulDimension fails soft to none and
getBitifulThumbhash fails soft to none. -/
structure FetchWorld where
  dimResult : Option (Nat × Nat)
  thumbResult : Option String
deriving DecidableEq, Repr

/-- Result of processing one image reference: the markup handed back to
the renderer, the cache state afterwards, and whether the two concurrent
remote fetches were issued (they are always issued together by the
Promise.all, so one flag covers both). -/
structure PipelineResult where
  html : String
  cacheAfter : Option CacheState
  fetchedRemote : Bool
deriving DecidableEq, Repr

/-- The eligibility gate shouldHandleProgressive of src/index.ts:
progressive loading enabled, a src attribute present and starting with
http, the Bitiful domain check, the format ignore-list, and the
development environment switch. The environment is an optional string
because the variable may be unset. -/
def eligibleRef (opts : PluginOpts) (nodeEnv : Option String) (src : Option String) : Bool :=
  opts.progressiveEnable &&
    (match src with
     | none => false
     | some s =>
       isPrefixL "http".data s.data &&
       isBitifulDomain s opts.bitifulDomains &&
       !(shouldIgnoreFormat s opts.ignoreFormats) &&
       !(decide (nodeEnv = some "development")))

/-- The ineligible branch of the image rule: when the parsed alt text
carries a truthy width override the host rendering is passed through
applyDimensionToHTML, otherwise it is returned as is. -/
def applyAltDims (pa : ParsedImageAlt) (hostHtml : String) : String :=
  if truthyNat pa.width then applyDimensionToHTML hostHtml pa.width pa.height
  else hostHtml

/-- Model of buildImageHTML from src/index.ts: display width is the
truthy override or the original width; the aspect height is the truthy
height override or the rounded proportional height; the img attributes
carry the srcset, the unconditional lazy loading hint and the fade-in
inline handlers; a nonempty placeholder wraps the img in the background
div, an empty one returns the bare img. Indentation inside the div
template mirrors the tab layout of the source template literal. -/
def buildImageHTML (pa : ParsedImageAlt) (src : String) (opts : PluginOpts)
    (originalWidth originalHeight : Nat) (dataURL : String) : String :=
  let displayWidth := match pa.width with
    | some w => if w = 0 then originalWidth else w
    | none => originalWidth
  let srcset := generateSrcset src originalWidth opts.srcsetWidths
  let mainImgAttrs :=
    "src=\"" ++ src ++ "\" alt=\"" ++ pa.alt ++ "\" srcset=\"" ++ srcset ++
    "\" loading=\"lazy\" decoding=\"async\" style=\"width: 100%; height: 100%; object-fit: cover; opacity: 0; transition: opacity 0.6s ease-in-out;\" onload=\"this.style.opacity=1; setTimeout(() => \x7b this.parentElement.style.backgroundImage=\x27none\x27; \x7d, 600);\""
  let aspectWidth := displayWidth
  let aspectHeight := match pa.height with
    | some h => if h = 0 then roundDiv (originalHeight * displayWidth) originalWidth else h
    | none => roundDiv (originalHeight * displayWidth) originalWidth
  if dataURL ≠ "" then
    "<div class=\"pic\" style=\"\n\t\t\tposition: relative;\n\t\t\toverflow: hidden;\n\t\t\twidth: 100%;\n\t\t\tmax-width: " ++
    toString displayWidth ++ "px;\n\t\t\tbackground-image: url(\x27" ++ dataURL ++
    "\x27);\n\t\t\tbackground-size: cover;\n\t\t\tbackground-repeat: no-repeat;\n\t\t\taspect-ratio: " ++
    toString aspectWidth ++ " / " ++ toString aspectHeight ++
    ";\n\t\t\">\n\t\t\t<img " ++ mainImgAttrs ++ ">\n\t\t</div>"
  else
    "<img " ++ mainImgAttrs ++ ">"

/-- Model of the async image rule installed by src/index.ts, lines 76 to
144, for a single reference. hostHtml is the value the wrapped host
imageRule resolves to. The cacheSt argument is the live cache when one
was constructed (cache path set and progressive loading enabled),
otherwise none. A thrown URIError from the key decoding inside the cache
methods rejects the returned promise and is modelled as Except.error. -/
def processImage (opts : PluginOpts) (nodeEnv : Option String) (src : Option String)
    (content : String) (hostHtml : String) (cacheSt : Option CacheState)
    (world : FetchWorld) : Except String PipelineResult :=
  let parsedAlt := parseObsidianImageAlt content
  if !(eligibleRef opts nodeEnv src) then
    Except.ok ⟨applyAltDims parsedAlt hostHtml, cacheSt, false⟩
  else
    match src with
    | none => Except.ok ⟨hostHtml, cacheSt, false⟩
    | some s =>
      let fetchPath : Option CacheState → Except String PipelineResult := fun cs =>
        match world.dimResult with
        | none => Except.ok ⟨hostHtml, cs, true⟩
        | some (w, h) =>
          let placeholderUrl := world.thumbResult.getD ""
          if placeholderUrl ≠ "" then
            match cs with
            | some c =>
              match cacheSet c s ⟨placeholderUrl, w, h⟩ with
              | some c2 =>
                Except.ok ⟨buildImageHTML parsedAlt s opts w h placeholderUrl, some c2, true⟩
              | none => Except.error "URIError: URI malformed"
            | none =>
              Except.ok ⟨buildImageHTML parsedAlt s opts w h placeholderUrl, none, true⟩
          else
            Except.ok ⟨buildImageHTML parsedAlt s opts w h placeholderUrl, cs, true⟩
      match cacheSt with
      | some cst =>
        match cacheGet cst s with
        | none => Except.error "URIError: URI malformed"
        | some (some e, cst1) =>
          Except.ok ⟨buildImageHTML parsedAlt s opts e.width e.height e.dataURL, some cst1, false⟩
        | some (none, cst1) => fetchPath (some cst1)
      | none => fetchPath none

/-- Error detector on the pipeline outcome. -/
def isErr : Except String PipelineResult → Bool
  | Except.error _ => true
  | Except.ok _ => false

/-- Successful outcome projection on the pipeline result. -/
def okResult : Except String PipelineResult → Option PipelineResult
  | Except.ok r => some r
  | Except.error _ => none

/-- Resolved skip-first lazy option from src/options.ts: the user value
or the documented default of two. No code in the image rule reads it. -/
def resolveLazySkipFirst (userSkip : Option Nat) : Nat := userSkip.getD 2

example :
    okResult (processImage ⟨false, [400], [], ["svg"]⟩ (some "production") (some "https://x.com/a.jpg")
      "a|300" "<img src=\"u\">" none ⟨none, none⟩) =
    some ⟨"<img style=\"max-width: 300px; width: 300px;\" src=\"u\">", none, false⟩ := by decide

example :
    isErr (processImage ⟨true, [400, 600], ["s3.bitiful.net"], ["svg"]⟩ (some "production")
      (some "https://s3.bitiful.net/a%zz.jpg") "alt" "<img src=\"u\">"
      (some ⟨[], false, 0, 0⟩) ⟨some (100, 50), some "d"⟩) = true := by decide

example :
    (match processImage ⟨true, [400, 600, 800, 1200, 2000, 3000], ["cdn.example.com"], ["svg"]⟩
        (some "production") (some "https://cdn.example.com/a.jpg") "photo|300" "<img src=\"u\">"
        (some ⟨[("https://cdn.example.com/a.jpg", ⟨"data:image/webp;base64,QUJD", 1200, 800⟩)], false, 0, 0⟩)
        ⟨none, none⟩ with
     | Except.ok r =>
        strIncludes r.html "max-width: 300px" && strIncludes r.html "aspect-ratio: 300 / 200" &&
        !r.fetchedRemote
     | Except.error _ => false) = true := by decide

example :
    (match processImage ⟨true, [400], ["s3.bitiful.net"], ["svg"]⟩ (some "production")
        (some "https://s3.bitiful.net/a.jpg?x=1") "alt" "h" (some ⟨[], false, 0, 0⟩)
        ⟨some (100, 50), some "D"⟩ with
     | Except.ok r =>
        decide (r.cacheAfter =
          some ⟨[("https://s3.bitiful.net/a.jpg?x=1", ⟨"D", 100, 50⟩)], true, 1, 0⟩)
     | Except.error _ => false) = true := by decide

theorem takeWhile_all_eq {α : Type} (p : α → Bool) :
    ∀ l : List α, l.all p = true → l.takeWhile p = l := by
  intro l
  induction l with
  | nil => intro _; rfl
  | cons a as ih =>
    intro h
    simp only [List.all_cons, Bool.and_eq_true] at h
    simp [List.takeWhile_cons, h.1, ih h.2]

theorem dropWhile_all_nil {α : Type} (p : α → Bool) :
    ∀ l : List α, l.all p = true → l.dropWhile p = [] := by
  intro l
  induction l with
  | nil => intro _; rfl
  | cons a as ih =>
    intro h
    simp only [List.all_cons, Bool.and_eq_true] at h
    simp [List.dropWhile_cons, h.1, ih h.2]

theorem takeWhile_append_cons {α : Type} (p : α → Bool) (l1 : List α) (c : α) (l2 : List α)
    (h1 : l1.all p = true) (hc : p c = false) :
    (l1 ++ c :: l2).takeWhile p = l1 := by
  induction l1 with
  | nil => simp [List.takeWhile_cons, hc]
  | cons a as ih =>
    simp only [List.all_cons, Bool.and_eq_true] at h1
    simp [List.takeWhile_cons, h1.1, ih h1.2]

theorem dropWhile_append_cons {α : Type} (p : α → Bool) (l1 : List α) (c : α) (l2 : List α)
    (h1 : l1.all p = true) (hc : p c = false) :
    (l1 ++ c :: l2).dropWhile p = c :: l2 := by
  induction l1 with
  | nil => simp [List.dropWhile_cons, hc]
  | cons a as ih =>
    simp only [List.all_cons, Bool.and_eq_true] at h1
    simp [List.dropWhile_cons, h1.1, ih h1.2]

theorem splitLastPipe_sound :
    ∀ t pre suf, splitLastPipe t = some (pre, suf) → t = pre ++ '|' :: suf := by
  intro t
  induction t with
  | nil => intro pre suf h; simp [splitLastPipe] at h
  | cons c rest ih =>
    intro pre suf h
    simp only [splitLastPipe] at h
    cases hr : splitLastPipe rest with
    | some ps =>
      obtain ⟨p1, s1⟩ := ps
      rw [hr] at h
      simp only [Option.some.injEq, Prod.mk.injEq] at h
      obtain ⟨h1, h2⟩ := h
      subst h2
      subst h1
      have hrest := ih p1 s1 hr
      simp [hrest]
    | none =>
      rw [hr] at h
      by_cases hc : c = '|'
      · subst hc
        rw [if_pos rfl] at h
        simp only [Option.some.injEq, Prod.mk.injEq] at h
        obtain ⟨h1, h2⟩ := h
        subst h1; subst h2
        simp
      · rw [if_neg hc] at h
        exact absurd h (by simp)

theorem splitLastPipe_none_of_no_pipe :
    ∀ t : List Char, '|' ∉ t → splitLastPipe t = none := by
  intro t
  induction t with
  | nil => intro _; rfl
  | cons c rest ih =>
    intro h
    have hc : ¬(c = '|') := fun hcc => h (hcc ▸ List.mem_cons_self c rest)
    have hr : '|' ∉ rest := fun hm => h (List.mem_cons_of_mem c hm)
    simp [splitLastPipe, ih hr, hc]

theorem splitLastPipe_append (pre ds : List Char) (h : '|' ∉ ds) :
    splitLastPipe (pre ++ '|' :: ds) = some (pre, ds) := by
  induction pre with
  | nil =>
    rw [List.nil_append]
    show (match splitLastPipe ds with
      | some (p, s) => some ('|' :: p, s)
      | none => if '|' = '|' then some ([], ds) else none) = some ([], ds)
    rw [splitLastPipe_none_of_no_pipe ds h, if_pos rfl]
  | cons c cs ih =>
    rw [List.cons_append]
    show (match splitLastPipe (cs ++ '|' :: ds) with
      | some (p, s) => some (c :: p, s)
      | none => if c = '|' then some ([], cs ++ '|' :: ds) else none) = some (c :: cs, ds)
    rw [ih]

theorem lookupCache_updateCache_self :
    ∀ (m : List (String × CacheEntry)) (k : String) (v : CacheEntry),
      lookupCache (updateCache m k v) k = some v := by
  intro m k v
  induction m with
  | nil => simp [updateCache, lookupCache]
  | cons kv rest ih =>
    obtain ⟨k0, v0⟩ := kv
    by_cases h : k0 = k
    · simp [updateCache, lookupCache, h]
    · simp [updateCache, lookupCache, h, ih]

theorem mem_dedupFirstAux (x : Nat) :
    ∀ (l seen : List Nat), x ∈ dedupFirstAux seen l ↔ x ∈ l ∧ x ∉ seen := by
  intro l
  induction l with
  | nil => intro seen; simp [dedupFirstAux]
  | cons a as ih =>
    intro seen
    by_cases ha : a ∈ seen
    · rw [dedupFirstAux, if_pos ha, ih]
      constructor
      · rintro ⟨hx, hs⟩
        exact ⟨List.mem_cons_of_mem a hx, hs⟩
      · rintro ⟨hx, hs⟩
        rcases List.mem_cons.mp hx with h1 | h1
        · exact absurd (h1 ▸ ha) hs
        · exact ⟨h1, hs⟩
    · rw [dedupFirstAux, if_neg ha]
      constructor
      · intro hx
        rcases List.mem_cons.mp hx with h1 | h1
        · subst h1; exact ⟨List.mem_cons_self x as, ha⟩
        · rw [ih] at h1
          obtain ⟨h2, h3⟩ := h1
          refine ⟨List.mem_cons_of_mem a h2, ?_⟩
          intro hs
          exact h3 (List.mem_cons_of_mem a hs)
      · rintro ⟨hx, hs⟩
        rcases List.mem_cons.mp hx with h1 | h1
        · subst h1; exact List.mem_cons_self x _
        · by_cases hxa : x = a
          · subst hxa; exact List.mem_cons_self x _
          · refine List.mem_cons_of_mem a ?_
            rw [ih]
            exact ⟨h1, fun hm => (List.mem_cons.mp hm).elim hxa hs⟩

theorem nodup_dedupFirstAux :
    ∀ (l seen : List Nat), (dedupFirstAux seen l).Nodup := by
  intro l
  induction l with
  | nil => intro seen; simp [dedupFirstAux]
  | cons a as ih =>
    intro seen
    by_cases ha : a ∈ seen
    · rw [dedupFirstAux, if_pos ha]; exact ih seen
    · rw [dedupFirstAux, if_neg ha]
      refine List.nodup_cons.mpr ⟨?_, ih (a :: seen)⟩
      intro hm
      rw [mem_dedupFirstAux] at hm
      exact hm.2 (List.mem_cons_self a seen)

theorem mem_dedupFirst (x : Nat) (l : List Nat) : x ∈ dedupFirst l ↔ x ∈ l := by
  rw [dedupFirst, mem_dedupFirstAux]
  simp

theorem nodup_dedupFirst (l : List Nat) : (dedupFirst l).Nodup :=
  nodup_dedupFirstAux l []

theorem getLast_eq_of_pairwise_le_max :
    ∀ (L : List Nat) (m : Nat), L.Pairwise (· ≤ ·) → m ∈ L → (∀ w ∈ L, w ≤ m) →
      L.getLast? = some m := by
  intro L
  induction L with
  | nil => intro m _ hm _; exact absurd hm (List.not_mem_nil m)
  | cons a as ih =>
    intro m hp hm hall
    cases as with
    | nil =>
      rcases List.mem_cons.mp hm with h1 | h1
      · subst h1; rfl
      · exact absurd h1 (List.not_mem_nil m)
    | cons b bs =>
      have hp2 : (b :: bs).Pairwise (· ≤ ·) := (List.pairwise_cons.mp hp).2
      have hrec : (b :: bs).getLast? = some m := by
        rcases List.mem_cons.mp hm with h1 | h1
        · subst h1
          have hab : m ≤ b := (List.pairwise_cons.mp hp).1 b (List.mem_cons_self b bs)
          have hba : b ≤ m := hall b (List.mem_cons_of_mem m (List.mem_cons_self b bs))
          have : b = m := Nat.le_antisymm hba hab
          exact ih m hp2 (this ▸ List.mem_cons_self b bs)
            (fun w hw => hall w (List.mem_cons_of_mem m hw))
        · exact ih m hp2 h1 (fun w hw => hall w (List.mem_cons_of_mem a hw))
      rw [List.getLast?_cons_cons]
      exact hrec

theorem hostChar_not_authority_delim (c : Char) (hc : isHostChar c = true) :
    (!(c == '/' || c == '?' || c == '#')) = true := by
  by_cases h1 : c = '/'
  · subst h1; exact absurd hc (by decide)
  · by_cases h2 : c = '?'
    · subst h2; exact absurd hc (by decide)
    · by_cases h3 : c = '#'
      · subst h3; exact absurd hc (by decide)
      · have e1 : (c == '/') = false := beq_eq_false_iff_ne.mpr h1
        have e2 : (c == '?') = false := beq_eq_false_iff_ne.mpr h2
        have e3 : (c == '#') = false := beq_eq_false_iff_ne.mpr h3
        simp [e1, e2, e3]

theorem hostChar_not_colon (c : Char) (hc : isHostChar c = true) :
    (!(c == ':')) = true := by
  by_cases h1 : c = ':'
  · subst h1; exact absurd hc (by decide)
  · have e1 : (c == ':') = false := beq_eq_false_iff_ne.mpr h1
    simp [e1]

theorem urlParse_https (h : List Char) (hne : h ≠ []) (hchars : h.all isHostChar = true) :
    urlParse ("https://".data ++ h ++ "/a.jpg".data) =
      some ⟨"https".data, h.map Char.toLower, "/a.jpg".data⟩ := by
  have hall : ∀ c ∈ h, isHostChar c = true := by
    intro c hc
    have := List.all_eq_true.mp hchars c hc
    simpa using this
  have hs : "https://".data ++ h ++ "/a.jpg".data =
      "https".data ++ ':' :: ('/' :: '/' :: (h ++ "/a.jpg".data)) := rfl
  have hpath : h ++ "/a.jpg".data = h ++ '/' :: "a.jpg".data := rfl
  have ht : ("https".data ++ ':' :: ('/' :: '/' :: (h ++ "/a.jpg".data))).takeWhile isSchemeChar
      = "https".data :=
    takeWhile_append_cons isSchemeChar _ _ _ (by decide) (by decide)
  have hd : ("https".data ++ ':' :: ('/' :: '/' :: (h ++ "/a.jpg".data))).dropWhile isSchemeChar
      = ':' :: ('/' :: '/' :: (h ++ "/a.jpg".data)) :=
    dropWhile_append_cons isSchemeChar _ _ _ (by decide) (by decide)
  have hauthAll : h.all (fun c => !(c == '/' || c == '?' || c == '#')) = true :=
    List.all_eq_true.mpr (fun c hc => by
      simpa using hostChar_not_authority_delim c (hall c hc))
  have hauth : (h ++ '/' :: "a.jpg".data).takeWhile
      (fun c => !(c == '/' || c == '?' || c == '#')) = h :=
    takeWhile_append_cons _ _ _ _ hauthAll (by decide)
  have hafter : (h ++ '/' :: "a.jpg".data).dropWhile
      (fun c => !(c == '/' || c == '?' || c == '#')) = '/' :: "a.jpg".data :=
    dropWhile_append_cons _ _ _ _ hauthAll (by decide)
  have hcolonAll : h.all (fun c => !(c == ':')) = true :=
    List.all_eq_true.mpr (fun c hc => by simpa using hostChar_not_colon c (hall c hc))
  have hhost : h.takeWhile (fun c => !(c == ':')) = h := takeWhile_all_eq _ h hcolonAll
  have hport : h.dropWhile (fun c => !(c == ':')) = [] := dropWhile_all_nil _ h hcolonAll
  have hhe : h.isEmpty = false := by
    cases h with
    | nil => exact absurd rfl hne
    | cons a as => rfl
  rw [hs]
  rw [urlParse.eq_def]
  rw [ht, hd]
  simp only [hpath, hauth, hafter, hhost, hport, hhe, hchars]
  have hp2 : ('/' :: "a.jpg".data).takeWhile (fun c => !(c == '?' || c == '#'))
      = '/' :: "a.jpg".data := by decide
  simp only [hp2]
  simp

/-- Modelled from the spec: the allow-pattern matcher the spec describes
for the Eligibility Filter, with matching anchored to the whole hostname,
case-insensitive, and at most a single wildcard segment matching any
substring. Used only to compare the specified matcher with the
implemented one. -/
def wildcardHostMatch (pat hostname : List Char) : Bool :=
  if pat.any (· == '*') then
    let pre := pat.takeWhile (fun c => !(c == '*'))
    let suf := (pat.dropWhile (fun c => !(c == '*'))).drop 1
    !(suf.any (· == '*')) && isPrefixL pre hostname && endsWithL suf hostname &&
      decide (pre.length + suf.length ≤ hostname.length)
  else decide (pat = hostname)

/-- Modelled from the spec: a hostname is allowed when some configured
allow-pattern matches it under the anchored, case-insensitive, single
wildcard rule. -/
def specHostAllowed (hostname : String) (pats : List String) : Bool :=
  pats.any (fun p =>
    wildcardHostMatch (p.data.map Char.toLower) (hostname.data.map Char.toLower))

/-- C1, counterexample: the implemented check accepts a URL whose
hostname merely embeds the configured pattern as an interior substring,
while the matcher described by the spec rejects that hostname. -/
theorem c1_counterexample :
    isBitifulDomain "https://s3.bitiful.net.evil.com/a.jpg" ["s3.bitiful.net"] = true ∧
    specHostAllowed "s3.bitiful.net.evil.com" ["s3.bitiful.net"] = false := by decide

/-- C1, amended: for every hostname in the modelled host character set
and every configured domain list, the implemented eligibility check
accepts an https URL built from that hostname exactly when the lowercased
hostname contains some configured pattern as a literal substring; the
match is unanchored and supports no wildcard. -/
theorem c1_amended_substring_match (h : List Char) (ds : List String)
    (hne : h ≠ []) (hchars : h.all isHostChar = true) :
    isBitifulDomain (String.mk ("https://".data ++ h ++ "/a.jpg".data)) ds = true ↔
      ds.any (fun dm => hasSubL dm.data (h.map Char.toLower)) = true := by
  have hdata : (String.mk ("https://".data ++ h ++ "/a.jpg".data)).data =
      "https://".data ++ h ++ "/a.jpg".data := rfl
  have hu := urlParse_https h hne hchars
  rw [isBitifulDomain, hdata, hu]

/-- C1, witness for the amended theorem at a concrete hostname that
embeds the configured pattern strictly inside itself. -/
theorem c1_amended_witness :
    isBitifulDomain
        (String.mk ("https://".data ++ "s3.bitiful.net.evil.com".data ++ "/a.jpg".data))
        ["s3.bitiful.net"] = true ↔
      (["s3.bitiful.net"] : List String).any
        (fun dm => hasSubL dm.data ("s3.bitiful.net.evil.com".data.map Char.toLower)) = true :=
  c1_amended_substring_match "s3.bitiful.net.evil.com".data ["s3.bitiful.net"]
    (by decide) (by decide)

/-- C2, counterexample: a reference that is ineligible because the
progressive path is disabled, whose alt text carries the width override
300, is not returned as the unmodified host rendering: the dimension
style is spliced into the img tag of the host rendering. -/
theorem c2_counterexample :
    okResult (processImage ⟨false, [400], [], ["svg"]⟩ (some "production")
        (some "https://x.com/a.jpg") "a|300" "<img src=\"u\">" none ⟨none, none⟩) =
      some ⟨"<img style=\"max-width: 300px; width: 300px;\" src=\"u\">", none, false⟩ ∧
    ("<img style=\"max-width: 300px; width: 300px;\" src=\"u\">" : String) ≠
      "<img src=\"u\">" := by decide

/-- C2, amended: for every ineligible reference the pipeline never
consults the cache and never fetches, and it returns the host rendering
with the width and height override style spliced into its first img tag
when the descriptive text carries a truthy width override, and the host
rendering completely unchanged otherwise. -/
theorem c2_amended_ineligible_passthrough (opts : PluginOpts) (nodeEnv : Option String)
    (src : Option String) (content hostHtml : String) (cacheSt : Option CacheState)
    (world : FetchWorld) (h : eligibleRef opts nodeEnv src = false) :
    processImage opts nodeEnv src content hostHtml cacheSt world =
      Except.ok ⟨applyAltDims (parseObsidianImageAlt content) hostHtml, cacheSt, false⟩ := by
  simp [processImage, h]

/-- C2, witness for the amended theorem: a disabled progressive path with
a width override in the alt text. -/
theorem c2_amended_witness :
    eligibleRef ⟨false, [400], [], ["svg"]⟩ (some "production") (some "https://x.com/a.jpg") =
      false ∧
    processImage ⟨false, [400], [], ["svg"]⟩ (some "production") (some "https://x.com/a.jpg")
        "a|300" "<img src=\"u\">" none ⟨none, none⟩ =
      Except.ok ⟨applyAltDims (parseObsidianImageAlt "a|300") "<img src=\"u\">", none, false⟩ :=
  ⟨by decide, c2_amended_ineligible_passthrough ⟨false, [400], [], ["svg"]⟩ (some "production")
    (some "https://x.com/a.jpg") "a|300" "<img src=\"u\">" none ⟨none, none⟩ (by decide)⟩

/-- C3: an eligible reference whose URL contains the malformed percent
escape sequence percent z z reaches the URL-decoding inside the cache
get, which throws URIError and rejects the rendering promise, so an
error does surface to the document consumer; with enrichment disabled
the very same reference renders fine, which is the worst case the claim
promises for every input. -/
theorem c3_percent_escape_throws :
    isErr (processImage ⟨true, [400, 600], ["s3.bitiful.net"], ["svg"]⟩ (some "production")
      (some "https://s3.bitiful.net/a%zz.jpg") "alt" "<img src=\"u\">"
      (some ⟨[], false, 0, 0⟩) ⟨some (100, 50), some "d"⟩) = true ∧
    okResult (processImage ⟨false, [400, 600], ["s3.bitiful.net"], ["svg"]⟩ (some "production")
      (some "https://s3.bitiful.net/a%zz.jpg") "alt" "<img src=\"u\">" none
      ⟨some (100, 50), some "d"⟩) = some ⟨"<img src=\"u\">", none, false⟩ := by decide

/-- C4: the end-to-end cache-hit scenario: an eligible reference to
a.jpg on an allowed domain with alt text photo pipe 300 and a cache entry
of width 1200 and height 800 produces markup carrying display width 300
and the derived aspect height 200, the remote fetches are not issued, and
the only cache state change is the hit counter. -/
theorem c4_cache_hit_scenario :
    (match processImage ⟨true, [400, 600, 800, 1200, 2000, 3000], ["cdn.example.com"], ["svg"]⟩
        (some "production") (some "https://cdn.example.com/a.jpg") "photo|300" "<img src=\"u\">"
        (some ⟨[("https://cdn.example.com/a.jpg", ⟨"data:image/webp;base64,QUJD", 1200, 800⟩)],
          false, 0, 0⟩)
        ⟨none, none⟩ with
     | Except.ok r =>
        strIncludes r.html "max-width: 300px" &&
        strIncludes r.html "aspect-ratio: 300 / 200" &&
        !r.fetchedRemote &&
        decide (r.cacheAfter =
          some ⟨[("https://cdn.example.com/a.jpg", ⟨"data:image/webp;base64,QUJD", 1200, 800⟩)],
            false, 0, 1⟩)
     | Except.error _ => false) = true := by decide

theorem all_takeWhile {α : Type} (p : α → Bool) :
    ∀ l : List α, ((l.takeWhile p).all p) = true := by
  intro l
  induction l with
  | nil => rfl
  | cons a as ih =>
    rw [List.takeWhile_cons]
    by_cases h : p a = true
    · simp [h, ih]
    · simp [h]

theorem no_pipe_of_all_digits (ds : List Char) (h : ds.all Char.isDigit = true) :
    '|' ∉ ds := by
  intro hm
  have := List.all_eq_true.mp h '|' hm
  simp at this

/-- The shape of a dimension suffix the anchored regex accepts after the
pipe: one digit run, or two digit runs separated by the letter x. -/
def DimSuffixOk (ds : List Char) : Prop :=
  (ds ≠ [] ∧ ds.all Char.isDigit = true) ∨
  (∃ d1 d2, ds = d1 ++ 'x' :: d2 ∧ d1 ≠ [] ∧ d2 ≠ [] ∧
    d1.all Char.isDigit = true ∧ d2.all Char.isDigit = true)

theorem parseDims_digits (ds : List Char) (hne : ds ≠ []) (hd : ds.all Char.isDigit = true) :
    parseDims ds = some (natOfDigits ds, none) := by
  have h1 : ds.takeWhile Char.isDigit = ds := takeWhile_all_eq _ ds hd
  have h2 : ds.dropWhile Char.isDigit = [] := dropWhile_all_nil _ ds hd
  have h3 : ds.isEmpty = false := by
    cases ds with
    | nil => exact absurd rfl hne
    | cons a as => rfl
  rw [parseDims.eq_def]
  simp only [h1, h2, h3]
  rfl

theorem parseDims_digits_x (d1 d2 : List Char) (h1ne : d1 ≠ [])
    (h1 : d1.all Char.isDigit = true) (h2ne : d2 ≠ []) (h2 : d2.all Char.isDigit = true) :
    parseDims (d1 ++ 'x' :: d2) = some (natOfDigits d1, some (natOfDigits d2)) := by
  have ht : (d1 ++ 'x' :: d2).takeWhile Char.isDigit = d1 :=
    takeWhile_append_cons _ _ _ _ h1 (by decide)
  have hd : (d1 ++ 'x' :: d2).dropWhile Char.isDigit = 'x' :: d2 :=
    dropWhile_append_cons _ _ _ _ h1 (by decide)
  have h3 : d1.isEmpty = false := by
    cases d1 with
    | nil => exact absurd rfl h1ne
    | cons a as => rfl
  have h4 : d2.isEmpty = false := by
    cases d2 with
    | nil => exact absurd rfl h2ne
    | cons a as => rfl
  rw [parseDims.eq_def]
  simp only [ht, hd, h3, h4, h2]
  rfl

theorem parseDims_some_shape (ds : List Char) (wh : Nat × Option Nat)
    (h : parseDims ds = some wh) : DimSuffixOk ds := by
  rw [parseDims.eq_def] at h
  by_cases he : (ds.takeWhile Char.isDigit).isEmpty = true
  · rw [if_pos he] at h
    exact absurd h (by simp)
  · rw [if_neg he] at h
    have hne : ds.takeWhile Char.isDigit ≠ [] := by
      intro hh
      exact he (by rw [hh]; rfl)
    have hsplit := List.takeWhile_append_dropWhile (p := Char.isDigit) (l := ds)
    split at h
    · left
      rename_i heq
      rw [heq, List.append_nil] at hsplit
      exact ⟨hsplit ▸ hne, hsplit ▸ all_takeWhile _ ds⟩
    · rename_i d2 heq
      by_cases hg : (!d2.isEmpty && d2.all Char.isDigit) = true
      · right
        simp only [Bool.and_eq_true, Bool.not_eq_true'] at hg
        refine ⟨ds.takeWhile Char.isDigit, d2, ?_, hne, ?_, all_takeWhile _ ds, hg.2⟩
        · rw [heq] at hsplit
          exact hsplit.symm
        · intro hh
          rw [hh] at hg
          exact absurd hg.1 (by decide)
      · rw [if_neg hg] at h
        exact absurd h (by simp)
    · exact absurd h (by simp)

theorem parseAlt_width_case (content : String) (pre ds : List Char)
    (h : jsTrimL content.data = pre ++ '|' :: ds)
    (hne : ds ≠ []) (hdig : ds.all Char.isDigit = true)
    (hlt : pre.any isLineTerm = false) :
    parseObsidianImageAlt content = ⟨String.mk (jsTrimL pre), some (natOfDigits ds), none⟩ := by
  have hpipe : '|' ∉ ds := no_pipe_of_all_digits ds hdig
  simp only [parseObsidianImageAlt]
  rw [h, splitLastPipe_append pre ds hpipe]
  simp only [hlt, Bool.false_eq_true, if_false, parseDims_digits ds hne hdig]

theorem parseAlt_width_height_case (content : String) (pre d1 d2 : List Char)
    (h : jsTrimL content.data = pre ++ '|' :: (d1 ++ 'x' :: d2))
    (h1ne : d1 ≠ []) (h1dig : d1.all Char.isDigit = true)
    (h2ne : d2 ≠ []) (h2dig : d2.all Char.isDigit = true)
    (hlt : pre.any isLineTerm = false) :
    parseObsidianImageAlt content =
      ⟨String.mk (jsTrimL pre), some (natOfDigits d1), some (natOfDigits d2)⟩ := by
  have hpipe : '|' ∉ d1 ++ 'x' :: d2 := by
    intro hm
    rcases List.mem_append.mp hm with h1 | h1
    · exact no_pipe_of_all_digits d1 h1dig h1
    · rcases List.mem_cons.mp h1 with h2 | h2
      · exact absurd h2 (by decide)
      · exact no_pipe_of_all_digits d2 h2dig h2
  simp only [parseObsidianImageAlt]
  rw [h, splitLastPipe_append pre _ hpipe]
  simp only [hlt, Bool.false_eq_true, if_false,
    parseDims_digits_x d1 d2 h1ne h1dig h2ne h2dig]

theorem parseAlt_fallback_case (content : String)
    (H : ∀ pre ds, jsTrimL content.data = pre ++ '|' :: ds →
      pre.any isLineTerm = false → ¬DimSuffixOk ds) :
    parseObsidianImageAlt content = ⟨content, none, none⟩ := by
  simp only [parseObsidianImageAlt]
  cases hsp : splitLastPipe (jsTrimL content.data) with
  | none => rfl
  | some ps =>
    obtain ⟨pre, suf⟩ := ps
    have heq := splitLastPipe_sound _ _ _ hsp
    by_cases hlt : pre.any isLineTerm = true
    · simp only [hlt, if_true]
    · have hlt' : pre.any isLineTerm = false := Bool.eq_false_iff.mpr hlt
      have hshape := H pre suf heq hlt'
      have hpd : parseDims suf = none := by
        cases hpd : parseDims suf with
        | none => rfl
        | some wh => exact absurd (parseDims_some_shape suf wh hpd) hshape
      simp only [hlt', Bool.false_eq_true, if_false, hpd]

/-- C5: the alt-text parser characterization. First, when the trimmed
content decomposes as a label, a pipe and one digit run, the parser
returns the trimmed label with that width override and no height.
Second, when the suffix is two digit runs separated by x, it returns the
trimmed label with both overrides. Third, any content admitting no such
decomposition, including a pipe followed by non-digits or digits
followed by trailing junk, comes back as the entire original text with
no overrides. -/
theorem c5_parse_characterization :
    (∀ (content : String) (pre ds : List Char),
      jsTrimL content.data = pre ++ '|' :: ds →
      ds ≠ [] → ds.all Char.isDigit = true → pre.any isLineTerm = false →
      parseObsidianImageAlt content =
        ⟨String.mk (jsTrimL pre), some (natOfDigits ds), none⟩) ∧
    (∀ (content : String) (pre d1 d2 : List Char),
      jsTrimL content.data = pre ++ '|' :: (d1 ++ 'x' :: d2) →
      d1 ≠ [] → d1.all Char.isDigit = true →
      d2 ≠ [] → d2.all Char.isDigit = true → pre.any isLineTerm = false →
      parseObsidianImageAlt content =
        ⟨String.mk (jsTrimL pre), some (natOfDigits d1), some (natOfDigits d2)⟩) ∧
    (∀ (content : String),
      (∀ pre ds, jsTrimL content.data = pre ++ '|' :: ds →
        pre.any isLineTerm = false → ¬DimSuffixOk ds) →
      parseObsidianImageAlt content = ⟨content, none, none⟩) :=
  ⟨fun content pre ds h h1 h2 h3 => parseAlt_width_case content pre ds h h1 h2 h3,
   fun content pre d1 d2 h h1 h2 h3 h4 h5 =>
     parseAlt_width_height_case content pre d1 d2 h h1 h2 h3 h4 h5,
   fun content H => parseAlt_fallback_case content H⟩

/-- C5, witness: the characterization applied to one width input, one
width and height input, and one input with no pipe at all. -/
theorem c5_parse_witness :
    parseObsidianImageAlt "photo|300" =
      ⟨String.mk (jsTrimL "photo".data), some (natOfDigits "300".data), none⟩ ∧
    parseObsidianImageAlt " a |640x480" =
      ⟨String.mk (jsTrimL "a ".data), some (natOfDigits "640".data),
        some (natOfDigits "480".data)⟩ ∧
    parseObsidianImageAlt "hello" = ⟨"hello", none, none⟩ :=
  ⟨c5_parse_characterization.1 "photo|300" "photo".data "300".data
      (by decide) (by decide) (by decide) (by decide),
   c5_parse_characterization.2.1 " a |640x480" "a ".data "640".data "480".data
      (by decide) (by decide) (by decide) (by decide) (by decide) (by decide),
   c5_parse_characterization.2.2 "hello" (fun pre ds heq _ => by
      have hmem : ('|' : Char) ∈ jsTrimL "hello".data := by
        rw [heq]
        exact List.mem_append_right _ (List.mem_cons_self _ _)
      have hev : jsTrimL "hello".data = "hello".data := by decide
      rw [hev] at hmem
      exact absurd hmem (by decide))⟩

/-- C6: the srcset width list is strictly ascending and deduplicated, it
always terminates with the original width, whose entry uses the
unmodified URL; every other emitted width is strictly below the original
and its entry appends a width query parameter, with an ampersand when
the URL already has a query string and a question mark otherwise; and
when no candidate lies strictly below the original width the descriptor
is the single entry made of the unmodified URL at the original width. -/
theorem c6_srcset_monotone (src : String) (width : Nat) (ws : List Nat) (_hw : 0 < width) :
    List.Chain' (· < ·) (srcsetSortedWidths width ws) ∧
    (srcsetSortedWidths width ws).getLast? = some width ∧
    (∀ w ∈ srcsetSortedWidths width ws, w ≠ width → w < width ∧
      srcsetEntryUrl src width w =
        (if strIncludes src "?" then src ++ "&w=" ++ toString w
         else src ++ "?w=" ++ toString w)) ∧
    srcsetEntryUrl src width width = src ∧
    (ws.filter (· < width) = [] → srcsetSortedWidths width ws = [width] ∧
      generateSrcset src width ws = src ++ " " ++ toString width ++ "w") := by
  have hperm : List.Perm (srcsetSortedWidths width ws)
      (dedupFirst (ws.filter (· < width) ++ [width])) :=
    List.perm_insertionSort _ _
  have hsorted : (srcsetSortedWidths width ws).Sorted (· ≤ ·) :=
    List.sorted_insertionSort _ _
  have hnodup : (srcsetSortedWidths width ws).Nodup :=
    hperm.nodup_iff.mpr (nodup_dedupFirst _)
  have hmem : ∀ x, x ∈ srcsetSortedWidths width ws ↔ (x ∈ ws ∧ x < width) ∨ x = width := by
    intro x
    rw [hperm.mem_iff, mem_dedupFirst, List.mem_append, List.mem_filter, List.mem_singleton]
    constructor
    · rintro (⟨h1, h2⟩ | h1)
      · exact Or.inl ⟨h1, by simpa using h2⟩
      · exact Or.inr h1
    · rintro (⟨h1, h2⟩ | h1)
      · exact Or.inl ⟨h1, by simpa using h2⟩
      · exact Or.inr h1
  have hpairlt : (srcsetSortedWidths width ws).Pairwise (· < ·) :=
    (hsorted.and hnodup).imp (fun h => lt_of_le_of_ne h.1 h.2)
  have hwmem : width ∈ srcsetSortedWidths width ws := (hmem width).mpr (Or.inr rfl)
  refine ⟨hpairlt.chain', ?_, ?_, ?_, ?_⟩
  · exact getLast_eq_of_pairwise_le_max _ width hsorted hwmem (fun w hmw => by
      rcases (hmem w).mp hmw with ⟨_, h2⟩ | h2
      · exact Nat.le_of_lt h2
      · exact h2.le)
  · intro w hmw hne
    refine ⟨?_, ?_⟩
    · rcases (hmem w).mp hmw with ⟨_, h2⟩ | h2
      · exact h2
      · exact absurd h2 hne
    · simp only [srcsetEntryUrl, if_neg hne]
  · simp [srcsetEntryUrl]
  · intro hf
    have hbase : dedupFirst (ws.filter (· < width) ++ [width]) = [width] := by
      rw [hf]
      simp [dedupFirst, dedupFirstAux]
    have hsingle : srcsetSortedWidths width ws = [width] := by
      rw [srcsetSortedWidths, hbase]
      rfl
    refine ⟨hsingle, ?_⟩
    rw [generateSrcset, hsingle]
    simp [srcsetEntryUrl, String.intercalate, String.intercalate.go]

/-- C6, witness: the shape theorem applied at a concrete URL, width and
candidate list. -/
theorem c6_srcset_witness :
    (srcsetSortedWidths 5 [3, 4, 7]).getLast? = some 5 :=
  (c6_srcset_monotone "u.jpg" 5 [3, 4, 7] (by decide)).2.1

/-- C7: with a decodable key, a first set followed by a second set of the
identically serialized value leaves the resulting state fixed, so the
pair of calls marks the store dirty at most once; and in general set is a
complete no-op when the serialized new value equals the serialized stored
value, while a differing serialization overwrites the entry and sets the
dirty flag. -/
theorem c7_set_serialized_dirty (st : CacheState) (k : String) (v : CacheEntry) (d : String)
    (hd : decodeURIComponentStr k = some d) :
    (∃ st1, cacheSet st k v = some st1 ∧ cacheSet st1 k v = some st1) ∧
    ((lookupCache st.cache d).map serializeEntry = some (serializeEntry v) →
      cacheSet st k v = some st) ∧
    ((lookupCache st.cache d).map serializeEntry ≠ some (serializeEntry v) →
      cacheSet st k v =
        some { st with cache := updateCache st.cache d v, isDirty := true }) := by
  refine ⟨?_, ?_, ?_⟩
  · by_cases he : (lookupCache st.cache d).map serializeEntry = some (serializeEntry v)
    · refine ⟨st, ?_, ?_⟩ <;> simp [cacheSet, hd, he]
    · refine ⟨{ st with cache := updateCache st.cache d v, isDirty := true }, ?_, ?_⟩
      · simp [cacheSet, hd, he]
      · simp [cacheSet, hd, lookupCache_updateCache_self]
  · intro he
    simp [cacheSet, hd, he]
  · intro he
    simp [cacheSet, hd, he]

/-- C7, witness: a fresh entry is written and marked dirty once, and the
repeated set leaves the state fixed. -/
theorem c7_set_witness :
    ∃ st1, cacheSet ⟨[], false, 0, 0⟩ "https://a/b.jpg" ⟨"D", 10, 20⟩ = some st1 ∧
      cacheSet st1 "https://a/b.jpg" ⟨"D", 10, 20⟩ = some st1 :=
  (c7_set_serialized_dirty ⟨[], false, 0, 0⟩ "https://a/b.jpg" ⟨"D", 10, 20⟩
    "https://a/b.jpg" (by decide)).1

/-- C8, counterexample: after a cache miss and successful fetches for the
URL a.jpg query x equals one, the entry is stored under the full decoded
URL with its query string, not under the canonical query-stripped URL;
processing the same image with query x equals two afterwards misses the
cache and fetches again, so the two references do not share one entry. -/
theorem c8_counterexample :
    (match processImage ⟨true, [400], ["s3.bitiful.net"], ["svg"]⟩ (some "production")
        (some "https://s3.bitiful.net/a.jpg?x=1") "alt" "h" (some ⟨[], false, 0, 0⟩)
        ⟨some (100, 50), some "D"⟩ with
     | Except.ok r =>
        decide (r.cacheAfter =
          some ⟨[("https://s3.bitiful.net/a.jpg?x=1", ⟨"D", 100, 50⟩)], true, 1, 0⟩) &&
        (match r.cacheAfter with
         | some st =>
            decide (lookupCache st.cache "https://s3.bitiful.net/a.jpg" = none) &&
            (match processImage ⟨true, [400], ["s3.bitiful.net"], ["svg"]⟩ (some "production")
                (some "https://s3.bitiful.net/a.jpg?x=2") "alt" "h" (some st)
                ⟨some (100, 50), some "D"⟩ with
             | Except.ok r2 => r2.fetchedRemote
             | Except.error _ => false)
         | none => false)
     | Except.error _ => false) = true := by decide

/-- C8, amended: for every eligible reference that misses the configured
cache and fetches successfully with a nonempty placeholder, the metadata
is stored under the URL-decoded full source URL, query string included;
query stripping applies only to the remote service request, so
references differing in their query strings get separate entries. -/
theorem c8_amended_full_url_key (opts : PluginOpts) (nodeEnv : Option String)
    (s content hostHtml : String) (cst : CacheState) (w h : Nat) (t d : String)
    (helig : eligibleRef opts nodeEnv (some s) = true)
    (hd : decodeURIComponentStr s = some d)
    (hmiss : lookupCache cst.cache d = none)
    (ht : t ≠ "") :
    processImage opts nodeEnv (some s) content hostHtml (some cst) ⟨some (w, h), some t⟩ =
      Except.ok ⟨buildImageHTML (parseObsidianImageAlt content) s opts w h t,
        some ⟨updateCache cst.cache d ⟨t, w, h⟩, true,
          cst.apiRequests + 1, cst.cacheHits⟩, true⟩ ∧
    lookupCache (updateCache cst.cache d ⟨t, w, h⟩) d = some ⟨t, w, h⟩ := by
  constructor
  · simp only [processImage, helig, Bool.not_true, Bool.false_eq_true, if_false,
      cacheGet, hd, hmiss, cacheSet, Option.map_none, Option.getD_some]
    simp [ht, hmiss]
  · exact lookupCache_updateCache_self cst.cache d ⟨t, w, h⟩

/-- C8, witness for the amended theorem at a URL carrying a query
string. -/
theorem c8_amended_witness :
    processImage ⟨true, [400], ["s3.bitiful.net"], ["svg"]⟩ (some "production")
        (some "https://s3.bitiful.net/a.jpg?x=1") "alt" "h" (some ⟨[], false, 0, 0⟩)
        ⟨some (100, 50), some "D"⟩ =
      Except.ok ⟨buildImageHTML (parseObsidianImageAlt "alt")
          "https://s3.bitiful.net/a.jpg?x=1" ⟨true, [400], ["s3.bitiful.net"], ["svg"]⟩
          100 50 "D",
        some ⟨updateCache [] "https://s3.bitiful.net/a.jpg?x=1" ⟨"D", 100, 50⟩, true, 1, 0⟩,
        true⟩ ∧
    lookupCache (updateCache [] "https://s3.bitiful.net/a.jpg?x=1" ⟨"D", 100, 50⟩)
      "https://s3.bitiful.net/a.jpg?x=1" = some ⟨"D", 100, 50⟩ :=
  c8_amended_full_url_key ⟨true, [400], ["s3.bitiful.net"], ["svg"]⟩ (some "production")
    "https://s3.bitiful.net/a.jpg?x=1" "alt" "h" ⟨[], false, 0, 0⟩ 100 50 "D"
    "https://s3.bitiful.net/a.jpg?x=1" (by decide) (by decide) (by decide) (by decide)

/-- C9: the markup assembler emits the lazy loading hint unconditionally,
so even the first enriched image of a document, which sits at or below
the resolved default skip threshold of two, carries loading lazy and no
eager or priority marking; the resolved skip-first option exists but no
image-rule code reads it. -/
theorem c9_lazy_unconditional :
    resolveLazySkipFirst none = 2 ∧
    (1 : Nat) ≤ resolveLazySkipFirst none ∧
    (match processImage ⟨true, [400, 600, 800, 1200, 2000, 3000], ["cdn.example.com"], ["svg"]⟩
        (some "production") (some "https://cdn.example.com/a.jpg") "photo" "<img src=\"u\">"
        (some ⟨[("https://cdn.example.com/a.jpg", ⟨"data:image/webp;base64,QUJD", 1200, 800⟩)],
          false, 0, 0⟩)
        ⟨none, none⟩ with
     | Except.ok r =>
        strIncludes r.html "loading=\"lazy\"" &&
        !(strIncludes r.html "eager") &&
        !(strIncludes r.html "fetchpriority")
     | Except.error _ => false) = true := by decide

/-- C10: with a decodable key, get returns the stored entry or the miss
sentinel, leaves the map and the dirty flag untouched, and its only state
effect is one increment of exactly one counter: the hit counter when the
decoded key is present, the request counter otherwise. -/
theorem c10_get_frame (st : CacheState) (k d : String)
    (hd : decodeURIComponentStr k = some d) :
    ∃ res st1, cacheGet st k = some (res, st1) ∧
      res = lookupCache st.cache d ∧
      st1.cache = st.cache ∧ st1.isDirty = st.isDirty ∧
      ((res.isSome = true ∧ st1.cacheHits = st.cacheHits + 1 ∧
          st1.apiRequests = st.apiRequests) ∨
       (res = none ∧ st1.apiRequests = st.apiRequests + 1 ∧
          st1.cacheHits = st.cacheHits)) := by
  cases hl : lookupCache st.cache d with
  | some e =>
    refine ⟨some e, { st with cacheHits := st.cacheHits + 1 }, ?_, ?_, rfl, rfl,
      Or.inl ⟨rfl, rfl, rfl⟩⟩
    · simp [cacheGet, hd, hl]
    · rfl
  | none =>
    refine ⟨none, { st with apiRequests := st.apiRequests + 1 }, ?_, ?_, rfl, rfl,
      Or.inr ⟨rfl, rfl, rfl⟩⟩
    · simp [cacheGet, hd, hl]
    · rfl

/-- C10, witness: one hit and one miss on a concrete cache state. -/
theorem c10_get_witness :
    ∃ res st1, cacheGet ⟨[("k", ⟨"D", 10, 20⟩)], false, 0, 0⟩ "k" = some (res, st1) ∧
      res = lookupCache [("k", ⟨"D", 10, 20⟩)] "k" ∧
      st1.cache = [("k", ⟨"D", 10, 20⟩)] ∧ st1.isDirty = false ∧
      ((res.isSome = true ∧ st1.cacheHits = 0 + 1 ∧ st1.apiRequests = 0) ∨
       (res = none ∧ st1.apiRequests = 0 + 1 ∧ st1.cacheHits = 0)) :=
  c10_get_frame ⟨[("k", ⟨"D", 10, 20⟩)], false, 0, 0⟩ "k" "k" (by decide)
